import Mathlib

/-!
Verification of the pose synchronization and transform pipeline of
`src/Navigator/GUI/ViewPanels/SimulatedToolsPanel.py`.

Shallow embedding conventions:
* 4x4 transform matrices are modelled as `Matrix (Fin 4) (Fin 4) ℚ`
  (exact arithmetic; the "numeric tolerance" of the informal statements
  is exact equality in this model).
* Python dicts keyed by strings are modelled as association lists with
  replace-or-append insertion, which preserves dict-like key uniqueness.
* Wall-clock readings of `time.time()` are passed in as an explicit
  rational parameter `t` (the claims under verification never depend on
  two distinct readings inside one operation).
* Actor keys `key + "_tracker"`, `key + "_tool"`, `key + "_subject"`
  are modelled as pairs `(key, aspect)`; since the three suffixes are
  pairwise distinct and none is a suffix of another, the concatenation
  used by the source is injective, so the pair representation is
  faithful.
* Python for-loops over lists/dicts are translated as structural
  recursion over the corresponding association lists, threading the
  mutated state exactly as the loop body does.
-/

/-- Transform matrices: 4x4 over the rationals. -/
abbrev M4 := Matrix (Fin 4) (Fin 4) ℚ

instance : DecidableEq M4 := fun _ _ => decidable_of_iff _ Matrix.ext_iff

/-- Timestamped pose of a tracked entity (NaviNIBS `TimestampedToolPosition`
as used by the panel: fields `time`, `transf`, `relativeTo`; `transf` and
`relativeTo` default to absent). -/
structure TimestampedToolPosition where
  time : ℚ
  transf : Option M4 := none
  relativeTo : Option String := none
deriving DecidableEq

/-- The Pose Store cache: latest pose per tracked-entity key
(`SimulatedToolPositionsClient.latestPositions`). -/
abbrev PositionsMap := List (String × TimestampedToolPosition)

/-- Modelled from the spec: the Pose Store latest-pose lookup
(`getLatest(entityKey) -> Pose | absent`, absent iff the key was never
seen); the client class `SimulatedToolPositionsClient` is not under src. -/
def lookupPos : PositionsMap → String → Option TimestampedToolPosition
  | [], _ => none
  | kv :: rest, k => if kv.1 = k then some kv.2 else lookupPos rest k

/-- Modelled from the spec: `recordNewPoseSync` updates the local cache so
that the key maps to the new pose (replace-or-append, keeping dict key
uniqueness); the client class is not under src. The async variant has the
same cache semantics once the awaited call completes. -/
def recordNewPosition_sync : PositionsMap → String → TimestampedToolPosition → PositionsMap
  | [], k, v => [(k, v)]
  | kv :: rest, k, v => if kv.1 = k then (k, v) :: rest else kv :: recordNewPosition_sync rest k v

/-- Modelled from the spec: `getLatestTransf(key, None)` of the positions
client returns the `transf` field of the latest pose for the key, or the
default `None` when the key is absent. -/
def getLatestTransf (m : PositionsMap) (k : String) : Option M4 :=
  (lookupPos m k).bind (fun p => p.transf)

/-- Transform chain composition (`NaviNIBS.util.Transforms.concatenateTransforms`):
the first listed transform is applied first to points, so as a matrix
product the list is multiplied in reverse order. The convention is fixed
by the source itself: line 236 forms `toolToTrackerTransf @ toolStlToToolTransf`
for the same stl-to-tracker transform that line 444 writes as
`concatenateTransforms([toolStlToToolTransf, toolToTrackerTransf])`. -/
def concatenateTransforms (transfs : List M4) : M4 :=
  transfs.foldl (fun acc T => T * acc) 1

/-- General 4x4 matrix inverse (`NaviNIBS.util.Transforms.invertTransform`),
written with the explicit adjugate formula so it stays executable. -/
def invertTransform (A : M4) : M4 :=
  A.det⁻¹ • A.adjugate

/-- Pose committed by `onNewTransf` inside `selectAndMoveTool` when the
picked actor key ends in `_tool` (lines 441-449): the incoming drag
transform is `toolStlToWorldTransf`, and the committed tracker pose is
`concatenateTransforms([invertTransform(concatenateTransforms([toolStlToToolTransf,
toolToTrackerTransf])), transf])`. -/
def onNewTransfTool (toolStlToToolTransf toolToTrackerTransf transf : M4) : M4 :=
  concatenateTransforms [
    invertTransform (concatenateTransforms [toolStlToToolTransf, toolToTrackerTransf]),
    transf]

/-- The commit performed by `onNewTransf` for a `_tool` actor: the new
tracker-to-world transform is recorded synchronously to the Pose Store
under the tool tracker key with the current wall-clock time (lines 461-468). -/
def onNewTransfToolCommit (m : PositionsMap) (trackerKey : String) (t : ℚ)
    (toolStlToToolTransf toolToTrackerTransf transf : M4) : PositionsMap :=
  recordNewPosition_sync m trackerKey
    { time := t
      transf := some (onNewTransfTool toolStlToToolTransf toolToTrackerTransf transf)
      relativeTo := none }

/-- Entity Registry entry: the per-tool attributes the panel reads from
`session.tools` items. The two StlFilepath fields record only presence
(the code compares them with None), and `isSubjectTracker` records
`isinstance(tool, SubjectTracker)`. -/
structure Tool where
  key : String
  trackerKey : String
  isActive : Bool
  isSubjectTracker : Bool := false
  doRenderTracker : Bool := true
  doRenderTool : Bool := true
  trackerStlFilepath : Bool := true
  toolStlFilepath : Bool := true
  toolStlToToolTransf : M4 := 1
  toolToTrackerTransf : Option M4 := none
  trackerStlToTrackerTransf : Option M4 := none
deriving DecidableEq

/-- Renderable aspect of an entity; the source encodes it as the actor
key suffix `_tracker` / `_tool` / `_subject`. -/
inductive Aspect
  | tracker
  | tool
  | subject
deriving DecidableEq

/-- Actor key: the source builds `key + "_" + aspectTag`; the pair
representation is injective for the same data. -/
abbrev ActorKey := String × Aspect

/-- Renderer actor state that the panel mutates: visibility and the user
transform set by `setActorUserTransform`. -/
structure ActorState where
  visible : Bool
  userTransform : Option M4 := none
deriving DecidableEq

/-- The binding table `self._actors` (absent value = no binding). -/
abbrev Actors := ActorKey → Option ActorState

/-- Modelled from the spec: persisted pose entry of the addon
configuration (`SimulatedToolPose` of `SimulatedToolsConfiguration`,
which is not under src): fields key, transf, relativeTo, the latter two
defaulting to absent, per the pose-persistence contract and the panel
usage. -/
structure SimulatedToolPose where
  key : String
  transf : Option M4 := none
  relativeTo : Option String := none
deriving DecidableEq

/-- The persisted config mapping `config.poses`. -/
abbrev ConfigPoses := List (String × SimulatedToolPose)

/-- Dict lookup in `config.poses`. -/
def lookupCfg : ConfigPoses → String → Option SimulatedToolPose
  | [], _ => none
  | kv :: rest, k => if kv.1 = k then some kv.2 else lookupCfg rest k

/-- Dict insertion `config.poses[key] = pose` (replace-or-append). -/
def setCfg : ConfigPoses → String → SimulatedToolPose → ConfigPoses
  | [], k, v => [(k, v)]
  | kv :: rest, k, v => if kv.1 = k then (k, v) :: rest else kv :: setCfg rest k v

/-- Field mutation `config.poses[key].transf = tf`. -/
def setCfgTransf (cfg : ConfigPoses) (k : String) (tf : Option M4) : ConfigPoses :=
  cfg.map (fun e => if e.1 = k then (e.1, { e.2 with transf := tf }) else e)

/-- Startup restore (lines 168-187): for each persisted pose with a
transform, push it into the Pose Store unless the key already has an
entry there (the no-default `getLatestTransf` raises KeyError exactly
for never-seen keys, per the spec Pose Store contract). -/
def restorePositions : ConfigPoses → PositionsMap → ℚ → PositionsMap
  | [], m, _ => m
  | kp :: rest, m, t =>
    restorePositions rest
      (match kp.2.transf with
       | none => m
       | some tf =>
         match lookupPos m kp.1 with
         | some _ => m
         | none =>
           recordNewPosition_sync m kp.1
             { time := t, transf := some tf, relativeTo := kp.2.relativeTo }) t

/-- Mirror of live poses into the persisted config (lines 189-197):
skip tools with neither a live transform nor a config entry, otherwise
create the config entry if missing and overwrite its transf field. -/
def mirrorPosesToConfig : List Tool → PositionsMap → ConfigPoses → ConfigPoses
  | [], _, cfg => cfg
  | tool :: rest, m, cfg =>
    mirrorPosesToConfig rest m
      (if getLatestTransf m tool.trackerKey = none ∧ lookupCfg cfg tool.trackerKey = none then
        cfg
      else
        setCfgTransf
          (match lookupCfg cfg tool.trackerKey with
           | none => setCfg cfg tool.trackerKey { key := tool.trackerKey }
           | some _ => cfg)
          tool.trackerKey (getLatestTransf m tool.trackerKey))

/-- Actor keys for one tool in the refresh pass (lines 207-209): tracker
and tool aspects, plus the subject aspect for a SubjectTracker. -/
def actorKeysForTool (tool : Tool) : List ActorKey :=
  [(tool.key, Aspect.tracker), (tool.key, Aspect.tool)]
    ++ (if tool.isSubjectTracker then [(tool.key, Aspect.subject)] else [])

/-- One step of the hide pass (lines 213-215): if the actor exists and is
visible, turn its visibility off. -/
def hideActorStep (acts : Actors) (k : ActorKey) : Actors :=
  match acts k with
  | some a =>
    if a.visible then Function.update acts k (some { a with visible := false }) else acts
  | none => acts

/-- Hide pass for a tool with no valid position (lines 211-216). -/
def hideToolActors : List ActorKey → Actors → Actors
  | [], acts => acts
  | k :: rest, acts => hideToolActors rest (hideActorStep acts k)

/-- The doRenderTracker / doRenderTool flag read in the aspect loop
(line 228); the subject aspect never reaches this read. -/
def doRenderAspect (tool : Tool) : Aspect → Bool
  | .tracker => tool.doRenderTracker
  | .tool => tool.doRenderTool
  | .subject => true

/-- Presence of the per-aspect stl filepath (line 231); the subject
aspect never reaches this read. -/
def stlFilepathPresent (tool : Tool) : Aspect → Bool
  | .tracker => tool.trackerStlFilepath
  | .tool => tool.toolStlFilepath
  | .subject => false

/-- The stl-to-tracker transform computed in the aspect loop
(lines 232-238): for the tool aspect it is
`toolToTrackerTransf @ toolStlToToolTransf` when the former is set. -/
def toolOrTrackerStlToTrackerTransf (tool : Tool) : Aspect → Option M4
  | .tool => tool.toolToTrackerTransf.map (fun tT => tT * tool.toolStlToToolTransf)
  | .tracker => tool.trackerStlToTrackerTransf
  | .subject => none

/-- Lazily create the render handle if needed, then set its user
transform (lines 243-263 and 271-280): `addMesh` creates a visible
actor, and `setActorUserTransform` overwrites the displayed transform. -/
def ensureAndSetUserTransform (acts : Actors) (k : ActorKey) (T : M4) : Actors :=
  match acts k with
  | some a => Function.update acts k (some { a with userTransform := some T })
  | none => Function.update acts k (some { visible := true, userTransform := some T })

/-- One iteration of the inner aspect loop (lines 226-263) for loop
value `asp`, threading the actors map and the doShow flag. When the
computed stl-to-tracker transform is absent, doShow is left unchanged,
exactly as in the source (no assignment on that path). -/
def toolOrTrackerStep (tool : Tool) (w : M4) (k : ActorKey)
    (acc : Actors × Bool) (asp : Aspect) : Actors × Bool :=
  if k = (tool.key, asp) then
    if doRenderAspect tool asp = false then (acc.1, false)
    else if stlFilepathPresent tool asp then
      match toolOrTrackerStlToTrackerTransf tool asp with
      | some sT => (ensureAndSetUserTransform acc.1 k (concatenateTransforms [sT, w]), true)
      | none => acc
    else (acc.1, false)
  else acc

/-- Subject-surface block (lines 268-280): needs the subject alignment
transform and the bound skin surface; the displayed transform is
`latestPose @ invertTransform(trackerToMRITransf)`. -/
def subjectStep (tool : Tool) (w : M4) (trackerToMRITransf : Option M4) (hasSkinSurf : Bool)
    (k : ActorKey) (acc : Actors × Bool) : Actors × Bool :=
  if tool.isSubjectTracker = true ∧ k = (tool.key, Aspect.subject) then
    match trackerToMRITransf with
    | some tMRI =>
      if hasSkinSurf then
        (ensureAndSetUserTransform acc.1 k (w * invertTransform tMRI), true)
      else acc
    | none => acc
  else acc

/-- Final visibility reconciliation (lines 282-288). -/
def reconcileVisibility (acc : Actors × Bool) (k : ActorKey) : Actors :=
  match acc.1 k with
  | some a =>
    if acc.2 && !a.visible then Function.update acc.1 k (some { a with visible := true })
    else if !acc.2 && a.visible then Function.update acc.1 k (some { a with visible := false })
    else acc.1
  | none => acc.1

/-- Per-actor processing in the valid-position branch (lines 218-288):
skip if the actor is being interactively moved, otherwise run the aspect
loop, the subject block and the visibility reconciliation. -/
def processActorKey (tool : Tool) (w : M4) (moving : List ActorKey)
    (trackerToMRITransf : Option M4) (hasSkinSurf : Bool)
    (acts : Actors) (k : ActorKey) : Actors :=
  if k ∈ moving then acts
  else
    reconcileVisibility
      (subjectStep tool w trackerToMRITransf hasSkinSurf k
        (toolOrTrackerStep tool w k
          (toolOrTrackerStep tool w k (acts, false) Aspect.tracker) Aspect.tool)) k

/-- The loop of the valid-position branch over the actor keys of a tool. -/
def processActorKeys (tool : Tool) (w : M4) (moving : List ActorKey)
    (trackerToMRITransf : Option M4) (hasSkinSurf : Bool) :
    List ActorKey → Actors → Actors
  | [], acts => acts
  | k :: rest, acts =>
    processActorKeys tool w moving trackerToMRITransf hasSkinSurf rest
      (processActorKey tool w moving trackerToMRITransf hasSkinSurf acts k)

/-- Per-tool refresh (lines 204-288): hide everything when the tool is
inactive or has no live transform, else process each actor key with the
latest tracker-to-world transform. -/
def refreshTool (moving : List ActorKey) (trackerToMRITransf : Option M4) (hasSkinSurf : Bool)
    (m : PositionsMap) (acts : Actors) (tool : Tool) : Actors :=
  match tool.isActive, getLatestTransf m tool.trackerKey with
  | true, some w =>
    processActorKeys tool w moving trackerToMRITransf hasSkinSurf (actorKeysForTool tool) acts
  | _, _ => hideToolActors (actorKeysForTool tool) acts

/-- The refresh loop over all tools. -/
def refreshTools (moving : List ActorKey) (trackerToMRITransf : Option M4) (hasSkinSurf : Bool)
    (m : PositionsMap) : List Tool → Actors → Actors
  | [], acts => acts
  | tool :: rest, acts =>
    refreshTools moving trackerToMRITransf hasSkinSurf m rest
      (refreshTool moving trackerToMRITransf hasSkinSurf m acts tool)

/-- The state the panel threads through `_onLatestPositionsChanged` and
`_onToolsChanged`: registry, Pose Store cache, persisted config, actor
bindings, the moving set and the lifecycle flags, plus the external
collaborators read by the subject branch. -/
structure PanelState where
  tools : List Tool
  positions : PositionsMap
  configPoses : ConfigPoses
  actors : Actors
  currentlyMovingActors : List ActorKey
  hasRestoredPositions : Bool
  hasInitialized : Bool
  isInitializing : Bool
  trackerToMRITransf : Option M4
  hasSkinSurf : Bool

/-- Restore stage of the refresh pass (lines 168-187), guarded by the
one-shot `_hasRestoredPositions` flag which is set afterwards. -/
def refreshRestoreStage (s : PanelState) (t : ℚ) : PanelState :=
  if s.hasRestoredPositions then s
  else
    { s with
      positions := restorePositions s.configPoses s.positions t
      hasRestoredPositions := true }

/-- Mirror stage of the refresh pass (lines 189-197). -/
def refreshMirrorStage (s : PanelState) : PanelState :=
  { s with configPoses := mirrorPosesToConfig s.tools s.positions s.configPoses }

/-- Render stage of the refresh pass, with the early return of line 199
when initialization has not started. -/
def refreshRenderStage (s : PanelState) : PanelState :=
  if s.hasInitialized = false ∧ s.isInitializing = false then s
  else
    { s with
      actors := refreshTools s.currentlyMovingActors s.trackerToMRITransf s.hasSkinSurf
        s.positions s.tools s.actors }

/-- The refresh pass `_onLatestPositionsChanged` (lines 164-291). -/
def onLatestPositionsChanged (s : PanelState) (t : ℚ) : PanelState :=
  refreshRenderStage (refreshMirrorStage (refreshRestoreStage s t))

/-- One removal step of `_onToolsChanged` (lines 155-159): if the actor
key is bound, remove the actor from the plotter, drop the binding and
set didRemove. -/
def removeToolActorStep (acc : Actors × Bool) (k : ActorKey) : Actors × Bool :=
  match acc.1 k with
  | some _ => (Function.update acc.1 k none, true)
  | none => acc

/-- The removal loop of `_onToolsChanged` (lines 153-159): it iterates
the CURRENT registry and removes the tracker/tool bindings of each
current tool. -/
def removeToolActorsLoop : List Tool → Actors × Bool → Actors × Bool
  | [], acc => acc
  | tool :: rest, acc =>
    removeToolActorsLoop rest
      (removeToolActorStep (removeToolActorStep acc (tool.key, Aspect.tracker))
        (tool.key, Aspect.tool))

/-- `_onToolsChanged` (lines 151-162): run the removal loop over the
current registry, then refresh if anything was removed. -/
def onToolsChanged (s : PanelState) (t : ℚ) : PanelState :=
  let res := removeToolActorsLoop s.tools (s.actors, false)
  let s1 := { s with actors := res.1 }
  if res.2 then onLatestPositionsChanged s1 t else s1

/-- The identity pose written by zeroAllPositions. -/
def zeroPose (t : ℚ) : TimestampedToolPosition :=
  { time := t, transf := some 1 }

/-- One iteration of zeroAllPositions (lines 304-315): skip when the
latest stored pose exists and is relative to another tool, otherwise
record an identity transform for the tracker key. -/
def zeroStep (m : PositionsMap) (tool : Tool) (t : ℚ) : PositionsMap :=
  match lookupPos m tool.trackerKey with
  | some pos =>
    if pos.relativeTo ≠ none then m
    else recordNewPosition_sync m tool.trackerKey (zeroPose t)
  | none => recordNewPosition_sync m tool.trackerKey (zeroPose t)

/-- `zeroAllPositions` (lines 303-315). -/
def zeroAllPositions : List Tool → PositionsMap → ℚ → PositionsMap
  | [], m, _ => m
  | tool :: rest, m, t => zeroAllPositions rest (zeroStep m tool t) t

/-- `clearAllPositions` (lines 293-301): synchronously record a pose with
no transform for every known tool tracker key. -/
def clearAllPositions : List Tool → PositionsMap → ℚ → PositionsMap
  | [], m, _ => m
  | tool :: rest, m, t =>
    clearAllPositions rest
      (recordNewPosition_sync m tool.trackerKey { time := t, transf := none }) t

/-- Python dict deletion `del positions[key]` (removes the entry of the
key; association lists built by replace-or-append hold it at most once). -/
def delKey : PositionsMap → String → PositionsMap
  | [], _ => []
  | kv :: rest, k => if kv.1 = k then rest else kv :: delKey rest k

/-- One iteration of the export filter loop (lines 365-368): look the
key up in the evolving dict and delete the entry when its relativeTo is
present. -/
def exportFilterStep (pos : PositionsMap) (key : String) : PositionsMap :=
  match lookupPos pos key with
  | some tsPos => if tsPos.relativeTo ≠ none then delKey pos key else pos
  | none => pos

/-- The filter loop of exportPositionsSnapshot (lines 364-368): iterate
the snapshot keys and delete from the evolving dict every entry whose
relativeTo is present. -/
def exportFilterLoop : List String → PositionsMap → PositionsMap
  | [], pos => pos
  | key :: rest, pos => exportFilterLoop rest (exportFilterStep pos key)

/-- `exportPositionsSnapshot` (lines 348-372) at the dict level: copy the
Pose Store cache, then unless `doIncludeToolsWithRelativePositions`
(default False in the source) run the relative-pose filter loop. The
json serialization of `asDict` is modelled from the spec as a faithful
round-tripping codec, so the snapshot is the dict itself. -/
def exportPositionsSnapshot (m : PositionsMap) (doIncludeToolsWithRelativePositions : Bool) :
    PositionsMap :=
  if doIncludeToolsWithRelativePositions then m
  else exportFilterLoop (m.map Prod.fst) m

/-- `importPositionsSnapshot` (lines 317-346) on a given positionsDict:
overwrite each pose time with the wall-clock time at import and record
it to the Pose Store under the key found in the snapshot (`fromDict` is
modelled from the spec as the inverse of the export codec). -/
def importPositionsSnapshot : PositionsMap → PositionsMap → ℚ → PositionsMap
  | m, [], _ => m
  | m, kv :: rest, t =>
    importPositionsSnapshot (recordNewPosition_sync m kv.1 { kv.2 with time := t }) rest t

/-- Outcome of the awaited interactive move inside `selectAndMoveTool`:
either it returns normally or the await raises (external cancellation or
an error mid-drag). -/
inductive DragOutcome
  | completed
  | cancelled
deriving DecidableEq

/-- Moving-set bookkeeping of `selectAndMoveTool` (lines 432-473): the
picked key is added before the interactive move; the removal on line 473
runs only when the awaited move returns normally, because there is no
try/finally — an external cancellation or an error raised mid-drag
propagates out of the await and skips the removal (the source carries a
`TODO: cleanup here` comment right after it). -/
def selectAndMoveTool_movingSet (currentlyMovingActors : List ActorKey)
    (pickedKey : ActorKey) (outcome : DragOutcome) : List ActorKey :=
  let moving := pickedKey :: currentlyMovingActors
  match outcome with
  | .completed => moving.erase pickedKey
  | .cancelled => moving

/-! Concrete states used by counterexamples and witnesses. -/

/-- An inactive tool whose tracker actor exists and is being dragged. -/
def cexTool : Tool :=
  { key := "T1", trackerKey := "T1", isActive := false }

/-- Binding table holding exactly the tracker actor of cexTool, visible. -/
def cexActors : Actors := fun j =>
  if j = ("T1", Aspect.tracker) then some { visible := true, userTransform := none } else none

/-- State in which the tracker actor of the inactive cexTool is in the
moving set while a refresh runs. -/
def s2cex : PanelState :=
  { tools := [cexTool]
    positions := []
    configPoses := []
    actors := cexActors
    currentlyMovingActors := [("T1", Aspect.tracker)]
    hasRestoredPositions := true
    hasInitialized := true
    isInitializing := false
    trackerToMRITransf := none
    hasSkinSurf := false }

/-- A tool that remains in the registry after an entity-set change. -/
def toolStay : Tool :=
  { key := "Stay", trackerKey := "Stay", isActive := true }

/-- Binding table with one actor of the remaining tool and one orphan
actor of a removed entity. -/
def s6cexActors : Actors := fun j =>
  if j = ("Stay", Aspect.tracker) then some { visible := true, userTransform := none }
  else if j = ("Gone", Aspect.tracker) then some { visible := true, userTransform := none }
  else none

/-- State right after the entity `Gone` was removed from the registry,
before `_onToolsChanged` runs. -/
def s6cex : PanelState :=
  { tools := [toolStay]
    positions := []
    configPoses := []
    actors := s6cexActors
    currentlyMovingActors := []
    hasRestoredPositions := true
    hasInitialized := false
    isInitializing := false
    trackerToMRITransf := none
    hasSkinSurf := false }

/-- State for the restore-stage witness: the Pose Store already holds a
(cleared) pose for T1 while the persisted config holds a transform for
it, and the one-shot flag is still unset. -/
def s5wit : PanelState :=
  { tools := []
    positions := [("T1", { time := 3, transf := none })]
    configPoses := [("T1", { key := "T1", transf := some 1 })]
    actors := fun _ => none
    currentlyMovingActors := []
    hasRestoredPositions := false
    hasInitialized := false
    isInitializing := false
    trackerToMRITransf := none
    hasSkinSurf := false }

/-- Independent entity for the zero-all scenario. -/
def zToolA : Tool := { key := "A", trackerKey := "A", isActive := true }

/-- Entity whose stored pose is relative for the zero-all scenario. -/
def zToolB : Tool := { key := "B", trackerKey := "B", isActive := true }

/-- Pose Store for the zero-all scenario: only B has a pose, and it is
relative to T1. -/
def zPos0 : PositionsMap :=
  [("B", { time := 5, transf := some 1, relativeTo := some "T1" })]

/-- Three entities for the clear-all scenario. -/
def cTools3 : List Tool :=
  [{ key := "A", trackerKey := "A", isActive := true },
   { key := "B", trackerKey := "B", isActive := true },
   { key := "C", trackerKey := "C", isActive := true }]

/-- Pose Store with one absolute and one relative entry, for the export
filter witness. -/
def ePosAB : PositionsMap :=
  [("A", { time := 1, transf := some 1 }),
   ("B", { time := 2, transf := some 1, relativeTo := some "A" })]

/-- Pose Store with a single absolute entry, for the round-trip witness. -/
def rPos1 : PositionsMap :=
  [("T1", { time := 5, transf := some 1 })]

/-! Helper lemmas. -/

theorem lookupPos_recordNewPosition_sync (m : PositionsMap) (k : String)
    (v : TimestampedToolPosition) (j : String) :
    lookupPos (recordNewPosition_sync m k v) j = if j = k then some v else lookupPos m j := by
  induction m with
  | nil =>
    by_cases hj : j = k
    · simp [recordNewPosition_sync, lookupPos, hj]
    · have hkj : ¬ k = j := fun h => hj h.symm
      simp [recordNewPosition_sync, lookupPos, hj, hkj]
  | cons hd tl ih =>
    by_cases h1 : hd.1 = k
    · by_cases hj : j = k
      · simp [recordNewPosition_sync, lookupPos, h1, hj]
      · have hkj : ¬ k = j := fun h => hj h.symm
        simp [recordNewPosition_sync, lookupPos, h1, hj, hkj]
    · by_cases hj : hd.1 = j
      · have hjk : ¬ j = k := fun h => h1 (hj.trans h)
        simp [recordNewPosition_sync, lookupPos, h1, hj, hjk]
      · simp [recordNewPosition_sync, lookupPos, h1, hj, ih]

theorem invertTransform_eq_inv (A : M4) : invertTransform A = A⁻¹ := by
  rw [Matrix.inv_def, Ring.inverse_eq_inv]
  rfl

theorem concatenateTransforms_pair (A B : M4) :
    concatenateTransforms [A, B] = B * A := by
  simp [concatenateTransforms]

/-! Theorems for the claims. -/

/-- C1: for a drag of a tool-aspect actor, each intermediate world
transform `W` is committed to the Pose Store under the tracker key as
`invert(O) ∘ W` with `O` the composed tool offset (toolMeshToToolTransform
then toolToTrackerTransform), and composing the offset back onto the
committed pose recovers `W` exactly, for every invertible offset `O`. -/
theorem C1_tool_drag_commit (m : PositionsMap) (trackerKey : String) (t : ℚ)
    (tS tT W : M4) (h : IsUnit (concatenateTransforms [tS, tT]).det) :
    getLatestTransf (onNewTransfToolCommit m trackerKey t tS tT W) trackerKey
        = some (onNewTransfTool tS tT W)
      ∧ concatenateTransforms [concatenateTransforms [tS, tT], onNewTransfTool tS tT W] = W := by
  constructor
  · unfold getLatestTransf onNewTransfToolCommit
    rw [lookupPos_recordNewPosition_sync]
    simp
  · rw [concatenateTransforms_pair] at h ⊢
    unfold onNewTransfTool
    rw [concatenateTransforms_pair, concatenateTransforms_pair, invertTransform_eq_inv,
      mul_assoc, Matrix.nonsing_inv_mul _ h, mul_one]

/-- Witness for C1 at a concrete invertible offset (identity offsets,
identity drag transform, empty Pose Store). -/
theorem C1_witness :
    IsUnit (concatenateTransforms [(1 : M4), (1 : M4)]).det
      ∧ (getLatestTransf (onNewTransfToolCommit [] "T1" 0 1 1 1) "T1"
            = some (onNewTransfTool 1 1 1)
          ∧ concatenateTransforms [concatenateTransforms [(1 : M4), (1 : M4)],
              onNewTransfTool 1 1 1] = 1) :=
  ⟨by simp [concatenateTransforms],
    C1_tool_drag_commit [] "T1" 0 1 1 1 (by simp [concatenateTransforms])⟩

theorem clearAllPositions_persist (tools : List Tool) (m : PositionsMap) (t : ℚ) (k : String)
    (h : lookupPos m k = some { time := t, transf := none }) :
    lookupPos (clearAllPositions tools m t) k = some { time := t, transf := none } := by
  induction tools generalizing m with
  | nil => simpa [clearAllPositions] using h
  | cons hd rest ih =>
    simp only [clearAllPositions]
    apply ih
    rw [lookupPos_recordNewPosition_sync]
    by_cases hk : k = hd.trackerKey
    · simp [hk]
    · simp [hk, h]

/-- C9: clear-all synchronously commits a pose with no transform for
every known entity tracker key, so the Pose Store lookup for each of
those keys afterwards returns a pose whose transform is absent. -/
theorem C9_clearAllPositions (tools : List Tool) (m : PositionsMap) (t : ℚ) :
    ∀ tool ∈ tools,
      lookupPos (clearAllPositions tools m t) tool.trackerKey
        = some { time := t, transf := none } := by
  induction tools generalizing m with
  | nil => intro tool htool; cases htool
  | cons hd rest ih =>
    intro tool htool
    rcases List.mem_cons.mp htool with h | h
    · subst h
      simp only [clearAllPositions]
      apply clearAllPositions_persist
      rw [lookupPos_recordNewPosition_sync]
      simp
    · exact ih _ tool h

/-- Witness for C9: clear-all over three entities, then the lookup for
the first one returns a pose with no transform. -/
theorem C9_witness :
    lookupPos (clearAllPositions cTools3 [] 0)
        ({ key := "A", trackerKey := "A", isActive := true : Tool }).trackerKey
      = some { time := 0, transf := none } :=
  C9_clearAllPositions cTools3 [] 0 _ (List.mem_cons_self _ _)

theorem zeroStep_eq_of_none (m : PositionsMap) (tool : Tool) (t : ℚ)
    (h : lookupPos m tool.trackerKey = none) :
    zeroStep m tool t = recordNewPosition_sync m tool.trackerKey (zeroPose t) := by
  unfold zeroStep
  rw [h]

theorem zeroStep_eq_of_relative (m : PositionsMap) (tool : Tool) (t : ℚ)
    (pos : TimestampedToolPosition) (h : lookupPos m tool.trackerKey = some pos)
    (hrel : pos.relativeTo ≠ none) :
    zeroStep m tool t = m := by
  unfold zeroStep
  rw [h]
  simp [hrel]

theorem zeroStep_eq_of_absolute (m : PositionsMap) (tool : Tool) (t : ℚ)
    (pos : TimestampedToolPosition) (h : lookupPos m tool.trackerKey = some pos)
    (hrel : pos.relativeTo = none) :
    zeroStep m tool t = recordNewPosition_sync m tool.trackerKey (zeroPose t) := by
  unfold zeroStep
  rw [h]
  simp [hrel]

theorem zeroStep_preserves_relative (m : PositionsMap) (tool : Tool) (t : ℚ) (k : String)
    (p : TimestampedToolPosition) (h : lookupPos m k = some p) (hrel : p.relativeTo ≠ none) :
    lookupPos (zeroStep m tool t) k = some p := by
  cases htk : lookupPos m tool.trackerKey with
  | none =>
    rw [zeroStep_eq_of_none m tool t htk, lookupPos_recordNewPosition_sync]
    by_cases hk : k = tool.trackerKey
    · subst hk; rw [h] at htk; cases htk
    · simp [hk, h]
  | some pos =>
    by_cases hrel2 : pos.relativeTo = none
    · rw [zeroStep_eq_of_absolute m tool t pos htk hrel2, lookupPos_recordNewPosition_sync]
      by_cases hk : k = tool.trackerKey
      · subst hk
        rw [h] at htk
        injection htk with e
        subst e
        exact absurd hrel2 hrel
      · simp [hk, h]
    · rw [zeroStep_eq_of_relative m tool t pos htk hrel2, h]

theorem zeroStep_persist_zero (m : PositionsMap) (tool : Tool) (t : ℚ) (k : String)
    (h : lookupPos m k = some (zeroPose t)) :
    lookupPos (zeroStep m tool t) k = some (zeroPose t) := by
  cases htk : lookupPos m tool.trackerKey with
  | none =>
    rw [zeroStep_eq_of_none m tool t htk, lookupPos_recordNewPosition_sync]
    by_cases hk : k = tool.trackerKey
    · simp [hk]
    · simp [hk, h]
  | some pos =>
    by_cases hrel2 : pos.relativeTo = none
    · rw [zeroStep_eq_of_absolute m tool t pos htk hrel2, lookupPos_recordNewPosition_sync]
      by_cases hk : k = tool.trackerKey
      · simp [hk]
      · simp [hk, h]
    · rw [zeroStep_eq_of_relative m tool t pos htk hrel2, h]

theorem zeroAllPositions_persist_zero (tools : List Tool) (t : ℚ) :
    ∀ (m : PositionsMap) (k : String), lookupPos m k = some (zeroPose t) →
      lookupPos (zeroAllPositions tools m t) k = some (zeroPose t) := by
  induction tools with
  | nil => intro m k h; simpa [zeroAllPositions] using h
  | cons hd rest ih =>
    intro m k h
    simp only [zeroAllPositions]
    exact ih _ k (zeroStep_persist_zero m hd t k h)

theorem zeroStep_preserves_precond (m : PositionsMap) (tool : Tool) (t : ℚ) (k : String)
    (h : ∀ p, lookupPos m k = some p → p.relativeTo = none) :
    ∀ p, lookupPos (zeroStep m tool t) k = some p → p.relativeTo = none := by
  intro p hp
  cases htk : lookupPos m tool.trackerKey with
  | none =>
    rw [zeroStep_eq_of_none m tool t htk, lookupPos_recordNewPosition_sync] at hp
    by_cases hk : k = tool.trackerKey
    · rw [if_pos hk] at hp
      injection hp with e
      subst e
      rfl
    · rw [if_neg hk] at hp
      exact h p hp
  | some pos =>
    by_cases hrel2 : pos.relativeTo = none
    · rw [zeroStep_eq_of_absolute m tool t pos htk hrel2,
        lookupPos_recordNewPosition_sync] at hp
      by_cases hk : k = tool.trackerKey
      · rw [if_pos hk] at hp
        injection hp with e
        subst e
        rfl
      · rw [if_neg hk] at hp
        exact h p hp
    · rw [zeroStep_eq_of_relative m tool t pos htk hrel2] at hp
      exact h p hp

theorem zeroAllPositions_writes (tools : List Tool) (t : ℚ) :
    ∀ (m : PositionsMap), ∀ tool ∈ tools,
      (∀ p, lookupPos m tool.trackerKey = some p → p.relativeTo = none) →
      lookupPos (zeroAllPositions tools m t) tool.trackerKey = some (zeroPose t) := by
  induction tools with
  | nil => intro m tool htool; cases htool
  | cons hd rest ih =>
    intro m tool htool hpre
    rcases List.mem_cons.mp htool with h | h
    · subst h
      simp only [zeroAllPositions]
      apply zeroAllPositions_persist_zero
      cases htk : lookupPos m tool.trackerKey with
      | none =>
        rw [zeroStep_eq_of_none m tool t htk, lookupPos_recordNewPosition_sync]
        simp
      | some pos =>
        rw [zeroStep_eq_of_absolute m tool t pos htk (hpre pos htk),
          lookupPos_recordNewPosition_sync]
        simp
    · simp only [zeroAllPositions]
      exact ih _ tool h (zeroStep_preserves_precond m hd t tool.trackerKey hpre)

theorem zeroAllPositions_skips (tools : List Tool) (t : ℚ) :
    ∀ (m : PositionsMap) (k : String) (p : TimestampedToolPosition),
      lookupPos m k = some p → p.relativeTo ≠ none →
      lookupPos (zeroAllPositions tools m t) k = some p := by
  induction tools with
  | nil => intro m k p h _; simpa [zeroAllPositions] using h
  | cons hd rest ih =>
    intro m k p h hrel
    simp only [zeroAllPositions]
    exact ih _ k p (zeroStep_preserves_relative m hd t k p h hrel) hrel

/-- C3: zero-all commits an identity transform for every (active) entity
whose stored pose either is absent or has no relativeTo, and leaves
untouched the stored pose of every key whose pose has relativeTo set. -/
theorem C3_zeroAllPositions (tools : List Tool) (m : PositionsMap) (t : ℚ) :
    (∀ tool ∈ tools, tool.isActive = true →
        (∀ p, lookupPos m tool.trackerKey = some p → p.relativeTo = none) →
        lookupPos (zeroAllPositions tools m t) tool.trackerKey = some (zeroPose t))
      ∧ (∀ k p, lookupPos m k = some p → p.relativeTo ≠ none →
        lookupPos (zeroAllPositions tools m t) k = some p) :=
  ⟨fun tool htool _ hpre => zeroAllPositions_writes tools t m tool htool hpre,
    fun k p hp hrel => zeroAllPositions_skips tools t m k p hp hrel⟩

/-- Witness for C3 on the spec scenario: entity A has no stored pose and
receives the identity pose; entity B has a pose relative to T1 and keeps
it unchanged. -/
theorem C3_witness :
    lookupPos (zeroAllPositions [zToolA, zToolB] zPos0 0) "A" = some (zeroPose 0)
      ∧ lookupPos (zeroAllPositions [zToolA, zToolB] zPos0 0) "B"
          = some { time := 5, transf := some 1, relativeTo := some "T1" } := by
  constructor
  · exact (C3_zeroAllPositions [zToolA, zToolB] zPos0 0).1 zToolA
      (List.mem_cons_self _ _) rfl
      (fun p hp => by
        rw [show lookupPos zPos0 zToolA.trackerKey = none from by decide] at hp
        cases hp)
  · exact (C3_zeroAllPositions [zToolA, zToolB] zPos0 0).2 "B"
      { time := 5, transf := some 1, relativeTo := some "T1" } (by decide) (by decide)

theorem lookupPos_mem (m : PositionsMap) (k : String) (p : TimestampedToolPosition)
    (h : lookupPos m k = some p) : (k, p) ∈ m := by
  induction m with
  | nil => cases h
  | cons hd tl ih =>
    by_cases hk : hd.1 = k
    · rw [lookupPos, if_pos hk] at h
      injection h with e
      subst e
      subst hk
      exact List.mem_cons_self _ _
    · rw [lookupPos, if_neg hk] at h
      exact List.mem_cons_of_mem _ (ih h)

theorem lookupPos_eq_none_of_not_mem (m : PositionsMap) (k : String)
    (h : k ∉ m.map Prod.fst) : lookupPos m k = none := by
  induction m with
  | nil => rfl
  | cons hd tl ih =>
    rw [List.map_cons, List.mem_cons] at h
    push_neg at h
    rw [lookupPos, if_neg (fun e => h.1 e.symm)]
    exact ih h.2

theorem mem_map_fst_of_lookupPos (m : PositionsMap) (k : String) (p : TimestampedToolPosition)
    (h : lookupPos m k = some p) : k ∈ m.map Prod.fst :=
  List.mem_map_of_mem Prod.fst (lookupPos_mem m k p h)

theorem lookupPos_delKey_ne (pos : PositionsMap) (k j : String) (hne : j ≠ k) :
    lookupPos (delKey pos k) j = lookupPos pos j := by
  induction pos with
  | nil => rfl
  | cons hd tl ih =>
    by_cases hk : hd.1 = k
    · rw [delKey, if_pos hk]
      have hdj : ¬ hd.1 = j := fun e => hne (e.symm.trans hk)
      rw [show lookupPos (hd :: tl) j = if hd.1 = j then some hd.2 else lookupPos tl j from rfl,
        if_neg hdj]
    · rw [delKey, if_neg hk]
      by_cases hj : hd.1 = j
      · rw [lookupPos, if_pos hj, lookupPos, if_pos hj]
      · rw [lookupPos, if_neg hj, lookupPos, if_neg hj, ih]

theorem delKey_map_fst_sublist (pos : PositionsMap) (k : String) :
    List.Sublist ((delKey pos k).map Prod.fst) (pos.map Prod.fst) := by
  induction pos with
  | nil => exact List.Sublist.refl _
  | cons hd tl ih =>
    by_cases hk : hd.1 = k
    · rw [delKey, if_pos hk, List.map_cons]
      exact List.sublist_cons_self _ _
    · rw [delKey, if_neg hk, List.map_cons, List.map_cons]
      exact List.Sublist.cons₂ _ ih

theorem delKey_nodup (pos : PositionsMap) (k : String) (h : (pos.map Prod.fst).Nodup) :
    ((delKey pos k).map Prod.fst).Nodup :=
  h.sublist (delKey_map_fst_sublist pos k)

theorem lookupPos_delKey_self (pos : PositionsMap) (k : String)
    (h : (pos.map Prod.fst).Nodup) : lookupPos (delKey pos k) k = none := by
  induction pos with
  | nil => rfl
  | cons hd tl ih =>
    rw [List.map_cons, List.nodup_cons] at h
    by_cases hk : hd.1 = k
    · rw [delKey, if_pos hk]
      subst hk
      exact lookupPos_eq_none_of_not_mem tl hd.1 h.1
    · rw [delKey, if_neg hk, lookupPos, if_neg hk]
      exact ih h.2

theorem exportFilterStep_eq_of_none (pos : PositionsMap) (key : String)
    (h : lookupPos pos key = none) : exportFilterStep pos key = pos := by
  unfold exportFilterStep
  rw [h]

theorem exportFilterStep_eq_of_keep (pos : PositionsMap) (key : String)
    (tsPos : TimestampedToolPosition) (h : lookupPos pos key = some tsPos)
    (hrel : tsPos.relativeTo = none) : exportFilterStep pos key = pos := by
  unfold exportFilterStep
  rw [h]
  simp [hrel]

theorem exportFilterStep_eq_of_del (pos : PositionsMap) (key : String)
    (tsPos : TimestampedToolPosition) (h : lookupPos pos key = some tsPos)
    (hrel : tsPos.relativeTo ≠ none) : exportFilterStep pos key = delKey pos key := by
  unfold exportFilterStep
  rw [h]
  simp [hrel]

theorem exportFilterStep_nodup (pos : PositionsMap) (key : String)
    (h : (pos.map Prod.fst).Nodup) : ((exportFilterStep pos key).map Prod.fst).Nodup := by
  cases htk : lookupPos pos key with
  | none => rw [exportFilterStep_eq_of_none pos key htk]; exact h
  | some tsPos =>
    by_cases hrel : tsPos.relativeTo = none
    · rw [exportFilterStep_eq_of_keep pos key tsPos htk hrel]; exact h
    · rw [exportFilterStep_eq_of_del pos key tsPos htk hrel]
      exact delKey_nodup pos key h

theorem exportFilterLoop_keeps_absolute (ks : List String) :
    ∀ (pos : PositionsMap) (j : String) (p : TimestampedToolPosition),
      lookupPos pos j = some p → p.relativeTo = none →
      lookupPos (exportFilterLoop ks pos) j = some p := by
  induction ks with
  | nil => intro pos j p h _; exact h
  | cons key rest ih =>
    intro pos j p h hrel
    simp only [exportFilterLoop]
    apply ih _ j p _ hrel
    cases htk : lookupPos pos key with
    | none => rw [exportFilterStep_eq_of_none pos key htk]; exact h
    | some tsPos =>
      by_cases hrel2 : tsPos.relativeTo = none
      · rw [exportFilterStep_eq_of_keep pos key tsPos htk hrel2]; exact h
      · rw [exportFilterStep_eq_of_del pos key tsPos htk hrel2]
        by_cases hj : j = key
        · subst hj
          rw [h] at htk
          injection htk with e
          subst e
          exact absurd hrel hrel2
        · rw [lookupPos_delKey_ne pos key j hj]; exact h

theorem exportFilterLoop_keeps_none (ks : List String) :
    ∀ (pos : PositionsMap) (j : String), lookupPos pos j = none →
      lookupPos (exportFilterLoop ks pos) j = none := by
  induction ks with
  | nil => intro pos j h; exact h
  | cons key rest ih =>
    intro pos j h
    simp only [exportFilterLoop]
    apply ih
    cases htk : lookupPos pos key with
    | none => rw [exportFilterStep_eq_of_none pos key htk]; exact h
    | some tsPos =>
      by_cases hrel2 : tsPos.relativeTo = none
      · rw [exportFilterStep_eq_of_keep pos key tsPos htk hrel2]; exact h
      · rw [exportFilterStep_eq_of_del pos key tsPos htk hrel2]
        by_cases hj : j = key
        · subst hj; rw [h] at htk; cases htk
        · rw [lookupPos_delKey_ne pos key j hj]; exact h

theorem exportFilterLoop_drops_relative (ks : List String) :
    ∀ (pos : PositionsMap) (j : String) (p : TimestampedToolPosition),
      (pos.map Prod.fst).Nodup → j ∈ ks → lookupPos pos j = some p →
      p.relativeTo ≠ none →
      lookupPos (exportFilterLoop ks pos) j = none := by
  induction ks with
  | nil => intro _ _ _ _ hj; cases hj
  | cons key rest ih =>
    intro pos j p hnd hj h hrel
    simp only [exportFilterLoop]
    by_cases hjk : j = key
    · subst hjk
      rw [exportFilterStep_eq_of_del pos j p h hrel]
      exact exportFilterLoop_keeps_none rest _ j (lookupPos_delKey_self pos j hnd)
    · have hjrest : j ∈ rest := by
        rcases List.mem_cons.mp hj with e | e
        · exact absurd e hjk
        · exact e
      apply ih _ j p (exportFilterStep_nodup pos key hnd) hjrest _ hrel
      cases htk : lookupPos pos key with
      | none => rw [exportFilterStep_eq_of_none pos key htk]; exact h
      | some tsPos =>
        by_cases hrel2 : tsPos.relativeTo = none
        · rw [exportFilterStep_eq_of_keep pos key tsPos htk hrel2]; exact h
        · rw [exportFilterStep_eq_of_del pos key tsPos htk hrel2]
          rw [lookupPos_delKey_ne pos key j hjk]
          exact h

/-- C7: with the relative-pose filter flag at its default value (False),
the exported snapshot maps a key to a pose exactly when the Pose Store
maps it to a pose whose relativeTo is absent. -/
theorem C7_export_default_filters_relative (m : PositionsMap)
    (h : (m.map Prod.fst).Nodup) (k : String) :
    lookupPos (exportPositionsSnapshot m false) k
      = (lookupPos m k).bind (fun p => if p.relativeTo = none then some p else none) := by
  show lookupPos (exportFilterLoop (m.map Prod.fst) m) k = _
  cases hk : lookupPos m k with
  | none =>
    rw [exportFilterLoop_keeps_none _ m k hk]
    rfl
  | some p =>
    by_cases hrel : p.relativeTo = none
    · rw [exportFilterLoop_keeps_absolute _ m k p hk hrel]
      simp [hrel]
    · rw [exportFilterLoop_drops_relative _ m k p h (mem_map_fst_of_lookupPos m k p hk) hk hrel]
      simp [hrel]

/-- Witness for C7: in a store with an absolute entry A and a relative
entry B, the default export drops exactly B. -/
theorem C7_witness :
    (ePosAB.map Prod.fst).Nodup
      ∧ lookupPos (exportPositionsSnapshot ePosAB false) "B"
          = (lookupPos ePosAB "B").bind
              (fun p => if p.relativeTo = none then some p else none) :=
  ⟨by decide, C7_export_default_filters_relative ePosAB (by decide) "B"⟩

theorem importPositionsSnapshot_not_mem (dict : List (String × TimestampedToolPosition)) :
    ∀ (m : PositionsMap) (t : ℚ) (k : String), k ∉ dict.map Prod.fst →
      lookupPos (importPositionsSnapshot m dict t) k = lookupPos m k := by
  induction dict with
  | nil => intro m t k _; rfl
  | cons kv rest ih =>
    intro m t k hk
    rw [List.map_cons, List.mem_cons] at hk
    push_neg at hk
    simp only [importPositionsSnapshot]
    rw [ih _ t k hk.2, lookupPos_recordNewPosition_sync, if_neg hk.1]

theorem importPositionsSnapshot_mem (dict : List (String × TimestampedToolPosition)) :
    ∀ (m : PositionsMap) (t : ℚ) (k : String) (p : TimestampedToolPosition),
      (dict.map Prod.fst).Nodup → (k, p) ∈ dict →
      lookupPos (importPositionsSnapshot m dict t) k = some { p with time := t } := by
  induction dict with
  | nil => intro _ _ _ _ _ hmem; cases hmem
  | cons kv rest ih =>
    intro m t k p hnd hmem
    rw [List.map_cons, List.nodup_cons] at hnd
    rcases List.mem_cons.mp hmem with e | e
    · subst e
      simp only [importPositionsSnapshot]
      rw [importPositionsSnapshot_not_mem rest _ t k hnd.1,
        lookupPos_recordNewPosition_sync, if_pos rfl]
    · simp only [importPositionsSnapshot]
      exact ih _ t k p hnd.2 e

/-- C8: exporting with the relative-pose filter disabled and importing
the snapshot commits, for every key of the original store, a pose with
the same transform and relativeTo, and with the time overwritten by the
wall-clock time at import. -/
theorem C8_export_import_roundtrip (c m : PositionsMap) (t : ℚ)
    (h : (c.map Prod.fst).Nodup) (k : String) (p : TimestampedToolPosition)
    (hk : lookupPos c k = some p) :
    lookupPos (importPositionsSnapshot m (exportPositionsSnapshot c true) t) k
      = some { time := t, transf := p.transf, relativeTo := p.relativeTo } := by
  have hexp : exportPositionsSnapshot c true = c := rfl
  rw [hexp]
  exact importPositionsSnapshot_mem c m t k p h (lookupPos_mem c k p hk)

/-- Witness for C8: a one-entry store round-trips with the time replaced
by the import-time clock. -/
theorem C8_witness :
    (rPos1.map Prod.fst).Nodup
      ∧ lookupPos rPos1 "T1" = some { time := 5, transf := some 1 }
      ∧ lookupPos (importPositionsSnapshot [] (exportPositionsSnapshot rPos1 true) 9) "T1"
          = some { time := 9, transf := some 1, relativeTo := none } :=
  ⟨by decide, by decide,
    C8_export_import_roundtrip rPos1 [] 9 (by decide) "T1"
      { time := 5, transf := some 1 } (by decide)⟩

/-- C4: the claim that the dragged actorKey is removed from MovingSet on
every exit path fails on the code. When the awaited interactive move is
cancelled externally (or raises mid-drag), the exception propagates past
the removal on line 473 — there is no try/finally — so the key stays in
the moving set; this theorem evaluates the moving-set bookkeeping at
that failing input. -/
theorem C4_cancelled_drag_keeps_key :
    ("T1", Aspect.tracker) ∈
      selectAndMoveTool_movingSet [] ("T1", Aspect.tracker) DragOutcome.cancelled := by
  simp [selectAndMoveTool_movingSet]

theorem refreshRestoreStage_eq_of_flag (s : PanelState) (t : ℚ)
    (h : s.hasRestoredPositions = true) : refreshRestoreStage s t = s := by
  unfold refreshRestoreStage
  rw [if_pos h]

theorem refreshRestoreStage_actors (s : PanelState) (t : ℚ) :
    (refreshRestoreStage s t).actors = s.actors := by
  unfold refreshRestoreStage
  split <;> rfl

theorem refreshRestoreStage_tools (s : PanelState) (t : ℚ) :
    (refreshRestoreStage s t).tools = s.tools := by
  unfold refreshRestoreStage
  split <;> rfl

theorem refreshRestoreStage_moving (s : PanelState) (t : ℚ) :
    (refreshRestoreStage s t).currentlyMovingActors = s.currentlyMovingActors := by
  unfold refreshRestoreStage
  split <;> rfl

theorem refreshRestoreStage_hasInitialized (s : PanelState) (t : ℚ) :
    (refreshRestoreStage s t).hasInitialized = s.hasInitialized := by
  unfold refreshRestoreStage
  split <;> rfl

theorem refreshRestoreStage_isInitializing (s : PanelState) (t : ℚ) :
    (refreshRestoreStage s t).isInitializing = s.isInitializing := by
  unfold refreshRestoreStage
  split <;> rfl

theorem refreshRestoreStage_flag (s : PanelState) (t : ℚ) :
    (refreshRestoreStage s t).hasRestoredPositions = true := by
  unfold refreshRestoreStage
  split
  · assumption
  · rfl

theorem refreshMirrorStage_positions (s : PanelState) :
    (refreshMirrorStage s).positions = s.positions := rfl

theorem refreshMirrorStage_actors (s : PanelState) :
    (refreshMirrorStage s).actors = s.actors := rfl

theorem refreshRenderStage_positions (s : PanelState) :
    (refreshRenderStage s).positions = s.positions := by
  unfold refreshRenderStage
  split <;> rfl

theorem refreshRenderStage_flag (s : PanelState) :
    (refreshRenderStage s).hasRestoredPositions = s.hasRestoredPositions := by
  unfold refreshRenderStage
  split <;> rfl

theorem onLatestPositionsChanged_positions (s : PanelState) (t : ℚ) :
    (onLatestPositionsChanged s t).positions = (refreshRestoreStage s t).positions := by
  unfold onLatestPositionsChanged
  rw [refreshRenderStage_positions, refreshMirrorStage_positions]

theorem restorePositions_preserves (cfg : ConfigPoses) :
    ∀ (m : PositionsMap) (t : ℚ) (k : String) (p : TimestampedToolPosition),
      lookupPos m k = some p → lookupPos (restorePositions cfg m t) k = some p := by
  induction cfg with
  | nil => intro m t k p h; exact h
  | cons kp rest ih =>
    intro m t k p h
    simp only [restorePositions]
    cases htf : kp.2.transf with
    | none => exact ih m t k p h
    | some tf =>
      cases hlk : lookupPos m kp.1 with
      | some q => exact ih m t k p h
      | none =>
        apply ih
        rw [lookupPos_recordNewPosition_sync]
        have hne : k ≠ kp.1 := by
          intro e
          rw [e, hlk] at h
          cases h
        rw [if_neg hne]
        exact h

/-- C5: the startup restore is guarded by the one-shot flag (the flag is
true after every refresh pass, and when it was already set the pass
leaves the Pose Store untouched), and the restore never overwrites a
pose that already exists in the Pose Store. -/
theorem C5_restore_once_no_overwrite (s : PanelState) (t : ℚ) :
    (onLatestPositionsChanged s t).hasRestoredPositions = true
      ∧ (s.hasRestoredPositions = true →
          (onLatestPositionsChanged s t).positions = s.positions)
      ∧ (∀ k p, lookupPos s.positions k = some p →
          lookupPos (onLatestPositionsChanged s t).positions k = some p) := by
  refine ⟨?_, ?_, ?_⟩
  · show (refreshRenderStage (refreshMirrorStage (refreshRestoreStage s t))).hasRestoredPositions
        = true
    rw [refreshRenderStage_flag]
    show (refreshRestoreStage s t).hasRestoredPositions = true
    exact refreshRestoreStage_flag s t
  · intro h
    rw [onLatestPositionsChanged_positions, refreshRestoreStage_eq_of_flag s t h]
  · intro k p hp
    rw [onLatestPositionsChanged_positions]
    unfold refreshRestoreStage
    split
    · exact hp
    · exact restorePositions_preserves s.configPoses s.positions t k p hp

/-- Witness for C5: the Pose Store already holds a cleared pose for T1,
the persisted config holds a transform for it, and the refresh (with the
one-shot flag unset, so the restore actually runs) leaves the stored
pose unchanged. -/
theorem C5_witness :
    lookupPos s5wit.positions "T1" = some { time := 3, transf := none }
      ∧ lookupPos (onLatestPositionsChanged s5wit 0).positions "T1"
          = some { time := 3, transf := none } :=
  ⟨by decide,
    (C5_restore_once_no_overwrite s5wit 0).2.2 "T1" { time := 3, transf := none } (by decide)⟩

theorem hideActorStep_eq_of_none (acts : Actors) (k : ActorKey) (h : acts k = none) :
    hideActorStep acts k = acts := by
  unfold hideActorStep
  rw [h]

theorem hideActorStep_eq_of_visible (acts : Actors) (k : ActorKey) (a : ActorState)
    (h : acts k = some a) (hv : a.visible = true) :
    hideActorStep acts k = Function.update acts k (some { a with visible := false }) := by
  unfold hideActorStep
  rw [h]
  simp [hv]

theorem hideActorStep_eq_of_invisible (acts : Actors) (k : ActorKey) (a : ActorState)
    (h : acts k = some a) (hv : a.visible = false) :
    hideActorStep acts k = acts := by
  unfold hideActorStep
  rw [h]
  simp [hv]

theorem hideActorStep_apply_ne (acts : Actors) (k j : ActorKey) (h : j ≠ k) :
    hideActorStep acts k j = acts j := by
  cases h2 : acts k with
  | none => rw [hideActorStep_eq_of_none acts k h2]
  | some a =>
    cases hv : a.visible
    · rw [hideActorStep_eq_of_invisible acts k a h2 hv]
    · rw [hideActorStep_eq_of_visible acts k a h2 hv, Function.update_noteq h]

theorem hideActorStep_hidden (acts : Actors) (k : ActorKey) (a : ActorState)
    (h : acts k = some a) :
    hideActorStep acts k k = some { visible := false, userTransform := a.userTransform } := by
  cases hv : a.visible
  · rw [hideActorStep_eq_of_invisible acts k a h hv, h]
    cases a
    simp only at hv
    rw [hv]
  · rw [hideActorStep_eq_of_visible acts k a h hv, Function.update_same]

theorem hideActorStep_userTransform (acts : Actors) (k j : ActorKey) :
    ((hideActorStep acts k) j).map (fun a => a.userTransform)
      = (acts j).map (fun a => a.userTransform) := by
  by_cases hj : j = k
  · subst hj
    cases h2 : acts j with
    | none => rw [hideActorStep_eq_of_none acts j h2, h2]
    | some a =>
      rw [hideActorStep_hidden acts j a h2]
      rfl
  · rw [hideActorStep_apply_ne acts k j hj]

theorem hideToolActors_apply_not_mem (keys : List ActorKey) :
    ∀ (acts : Actors) (j : ActorKey), j ∉ keys → hideToolActors keys acts j = acts j := by
  induction keys with
  | nil => intro acts j _; rfl
  | cons k0 rest ih =>
    intro acts j hj
    rw [List.mem_cons] at hj
    push_neg at hj
    simp only [hideToolActors]
    rw [ih _ j hj.2, hideActorStep_apply_ne acts k0 j hj.1]

theorem hideToolActors_userTransform (keys : List ActorKey) :
    ∀ (acts : Actors) (j : ActorKey),
      ((hideToolActors keys acts) j).map (fun a => a.userTransform)
        = (acts j).map (fun a => a.userTransform) := by
  induction keys with
  | nil => intro acts j; rfl
  | cons k0 rest ih =>
    intro acts j
    simp only [hideToolActors]
    rw [ih _ j, hideActorStep_userTransform]

theorem hideToolActors_hidden_persist (keys : List ActorKey) :
    ∀ (acts : Actors) (j : ActorKey) (u : Option M4),
      acts j = some { visible := false, userTransform := u } →
      hideToolActors keys acts j = some { visible := false, userTransform := u } := by
  induction keys with
  | nil => intro acts j u h; exact h
  | cons k0 rest ih =>
    intro acts j u h
    simp only [hideToolActors]
    apply ih
    by_cases hj : j = k0
    · subst hj
      rw [hideActorStep_eq_of_invisible acts j _ h rfl]
      exact h
    · rw [hideActorStep_apply_ne acts k0 j hj]
      exact h

theorem hideToolActors_result (keys : List ActorKey) :
    ∀ (acts : Actors) (j : ActorKey) (a : ActorState), j ∈ keys → acts j = some a →
      hideToolActors keys acts j = some { visible := false, userTransform := a.userTransform } := by
  induction keys with
  | nil => intro _ _ _ hj; cases hj
  | cons k0 rest ih =>
    intro acts j a hj ha
    simp only [hideToolActors]
    by_cases he : j = k0
    · subst he
      exact hideToolActors_hidden_persist rest _ j a.userTransform
        (hideActorStep_hidden acts j a ha)
    · rcases List.mem_cons.mp hj with e | e
      · exact absurd e he
      · exact ih _ j a e (by rw [hideActorStep_apply_ne acts k0 j he]; exact ha)

theorem mem_actorKeysForTool_fst (tool : Tool) (j : ActorKey)
    (h : j ∈ actorKeysForTool tool) : j.1 = tool.key := by
  unfold actorKeysForTool at h
  rw [List.mem_append, List.mem_cons, List.mem_cons] at h
  rcases h with (e | e | e) | e
  · rw [e]
  · rw [e]
  · cases e
  · by_cases hs : tool.isSubjectTracker
    · rw [if_pos hs, List.mem_singleton] at e
      rw [e]
    · rw [if_neg hs] at e
      cases e

theorem ensureAndSetUserTransform_eq_of_some (acts : Actors) (k : ActorKey) (T : M4)
    (a : ActorState) (h : acts k = some a) :
    ensureAndSetUserTransform acts k T
      = Function.update acts k (some { a with userTransform := some T }) := by
  unfold ensureAndSetUserTransform
  rw [h]

theorem ensureAndSetUserTransform_eq_of_none (acts : Actors) (k : ActorKey) (T : M4)
    (h : acts k = none) :
    ensureAndSetUserTransform acts k T
      = Function.update acts k (some { visible := true, userTransform := some T }) := by
  unfold ensureAndSetUserTransform
  rw [h]

theorem ensureAndSetUserTransform_apply_ne (acts : Actors) (k j : ActorKey) (T : M4)
    (h : j ≠ k) : ensureAndSetUserTransform acts k T j = acts j := by
  cases h2 : acts k with
  | none => rw [ensureAndSetUserTransform_eq_of_none acts k T h2, Function.update_noteq h]
  | some a => rw [ensureAndSetUserTransform_eq_of_some acts k T a h2, Function.update_noteq h]

theorem toolOrTrackerStep_fst (tool : Tool) (w : M4) (k : ActorKey) (acc : Actors × Bool)
    (asp : Aspect) :
    (toolOrTrackerStep tool w k acc asp).1 = acc.1
      ∨ ∃ T, (toolOrTrackerStep tool w k acc asp).1 = ensureAndSetUserTransform acc.1 k T := by
  unfold toolOrTrackerStep
  by_cases hk : k = (tool.key, asp)
  · rw [if_pos hk]
    by_cases hdr : doRenderAspect tool asp = false
    · rw [if_pos hdr]
      exact Or.inl rfl
    · rw [if_neg hdr]
      by_cases hstl : stlFilepathPresent tool asp = true
      · rw [if_pos hstl]
        cases htr : toolOrTrackerStlToTrackerTransf tool asp with
        | some sT => exact Or.inr ⟨concatenateTransforms [sT, w], rfl⟩
        | none => exact Or.inl rfl
      · rw [if_neg hstl]
        exact Or.inl rfl
  · rw [if_neg hk]
    exact Or.inl rfl

theorem subjectStep_fst (tool : Tool) (w : M4) (trackerToMRITransf : Option M4)
    (hasSkinSurf : Bool) (k : ActorKey) (acc : Actors × Bool) :
    (subjectStep tool w trackerToMRITransf hasSkinSurf k acc).1 = acc.1
      ∨ ∃ T, (subjectStep tool w trackerToMRITransf hasSkinSurf k acc).1
          = ensureAndSetUserTransform acc.1 k T := by
  unfold subjectStep
  split
  · split
    · split
      · exact Or.inr ⟨_, rfl⟩
      · exact Or.inl rfl
    · exact Or.inl rfl
  · exact Or.inl rfl

theorem reconcileVisibility_eq_of_none (acc : Actors × Bool) (k : ActorKey)
    (h : acc.1 k = none) : reconcileVisibility acc k = acc.1 := by
  unfold reconcileVisibility
  rw [h]

theorem reconcileVisibility_eq_of_some (acc : Actors × Bool) (k : ActorKey) (a : ActorState)
    (h : acc.1 k = some a) :
    reconcileVisibility acc k
      = (if (acc.2 && !a.visible) = true then
          Function.update acc.1 k (some { a with visible := true })
        else if (!acc.2 && a.visible) = true then
          Function.update acc.1 k (some { a with visible := false })
        else acc.1) := by
  unfold reconcileVisibility
  rw [h]

theorem reconcileVisibility_apply_ne (acc : Actors × Bool) (k j : ActorKey) (h : j ≠ k) :
    reconcileVisibility acc k j = acc.1 j := by
  cases h2 : acc.1 k with
  | none => rw [reconcileVisibility_eq_of_none acc k h2]
  | some a =>
    rw [reconcileVisibility_eq_of_some acc k a h2]
    by_cases hb : (acc.2 && !a.visible) = true
    · rw [if_pos hb, Function.update_noteq h]
    · rw [if_neg hb]
      by_cases hb2 : (!acc.2 && a.visible) = true
      · rw [if_pos hb2, Function.update_noteq h]
      · rw [if_neg hb2]

theorem processActorKey_eq_of_moving (tool : Tool) (w : M4) (moving : List ActorKey)
    (trackerToMRITransf : Option M4) (hasSkinSurf : Bool) (acts : Actors) (k : ActorKey)
    (h : k ∈ moving) :
    processActorKey tool w moving trackerToMRITransf hasSkinSurf acts k = acts := by
  unfold processActorKey
  rw [if_pos h]

theorem processActorKey_apply_ne (tool : Tool) (w : M4) (moving : List ActorKey)
    (trackerToMRITransf : Option M4) (hasSkinSurf : Bool) (acts : Actors) (k j : ActorKey)
    (h : j ≠ k) :
    processActorKey tool w moving trackerToMRITransf hasSkinSurf acts k j = acts j := by
  unfold processActorKey
  by_cases hm : k ∈ moving
  · rw [if_pos hm]
  · rw [if_neg hm]
    rw [reconcileVisibility_apply_ne _ k j h]
    have hsub := subjectStep_fst tool w trackerToMRITransf hasSkinSurf k
      (toolOrTrackerStep tool w k (toolOrTrackerStep tool w k (acts, false) Aspect.tracker)
        Aspect.tool)
    have h2 := toolOrTrackerStep_fst tool w k
      (toolOrTrackerStep tool w k (acts, false) Aspect.tracker) Aspect.tool
    have h1 := toolOrTrackerStep_fst tool w k (acts, false) Aspect.tracker
    have e1 : (toolOrTrackerStep tool w k (acts, false) Aspect.tracker).1 j = acts j := by
      rcases h1 with e | ⟨T, e⟩
      · rw [e]
      · rw [e, ensureAndSetUserTransform_apply_ne _ k j T h]
    have e2 : (toolOrTrackerStep tool w k
        (toolOrTrackerStep tool w k (acts, false) Aspect.tracker) Aspect.tool).1 j = acts j := by
      rcases h2 with e | ⟨T, e⟩
      · rw [e, e1]
      · rw [e, ensureAndSetUserTransform_apply_ne _ k j T h, e1]
    rcases hsub with e | ⟨T, e⟩
    · rw [e, e2]
    · rw [e, ensureAndSetUserTransform_apply_ne _ k j T h, e2]

theorem processActorKeys_apply_not_mem (tool : Tool) (w : M4) (moving : List ActorKey)
    (trackerToMRITransf : Option M4) (hasSkinSurf : Bool) (keys : List ActorKey) :
    ∀ (acts : Actors) (j : ActorKey), j ∉ keys →
      processActorKeys tool w moving trackerToMRITransf hasSkinSurf keys acts j = acts j := by
  induction keys with
  | nil => intro acts j _; rfl
  | cons k0 rest ih =>
    intro acts j hj
    rw [List.mem_cons] at hj
    push_neg at hj
    simp only [processActorKeys]
    rw [ih _ j hj.2, processActorKey_apply_ne tool w moving trackerToMRITransf hasSkinSurf
      acts k0 j hj.1]

theorem processActorKeys_apply_moving (tool : Tool) (w : M4) (moving : List ActorKey)
    (trackerToMRITransf : Option M4) (hasSkinSurf : Bool) (keys : List ActorKey) :
    ∀ (acts : Actors) (j : ActorKey), j ∈ moving →
      processActorKeys tool w moving trackerToMRITransf hasSkinSurf keys acts j = acts j := by
  induction keys with
  | nil => intro acts j _; rfl
  | cons k0 rest ih =>
    intro acts j hj
    simp only [processActorKeys]
    rw [ih _ j hj]
    by_cases he : j = k0
    · subst he
      rw [processActorKey_eq_of_moving tool w moving trackerToMRITransf hasSkinSurf acts j hj]
    · rw [processActorKey_apply_ne tool w moving trackerToMRITransf hasSkinSurf acts k0 j he]

theorem refreshTool_eq_of_inactive (moving : List ActorKey) (trackerToMRITransf : Option M4)
    (hasSkinSurf : Bool) (m : PositionsMap) (acts : Actors) (tool : Tool)
    (h : tool.isActive = false) :
    refreshTool moving trackerToMRITransf hasSkinSurf m acts tool
      = hideToolActors (actorKeysForTool tool) acts := by
  unfold refreshTool
  rw [h]

theorem refreshTool_eq_of_no_transf (moving : List ActorKey) (trackerToMRITransf : Option M4)
    (hasSkinSurf : Bool) (m : PositionsMap) (acts : Actors) (tool : Tool)
    (h : getLatestTransf m tool.trackerKey = none) :
    refreshTool moving trackerToMRITransf hasSkinSurf m acts tool
      = hideToolActors (actorKeysForTool tool) acts := by
  cases ha : tool.isActive
  · exact refreshTool_eq_of_inactive moving trackerToMRITransf hasSkinSurf m acts tool ha
  · unfold refreshTool
    rw [ha, h]

theorem refreshTool_eq_of_active (moving : List ActorKey) (trackerToMRITransf : Option M4)
    (hasSkinSurf : Bool) (m : PositionsMap) (acts : Actors) (tool : Tool) (w : M4)
    (ha : tool.isActive = true) (hw : getLatestTransf m tool.trackerKey = some w) :
    refreshTool moving trackerToMRITransf hasSkinSurf m acts tool
      = processActorKeys tool w moving trackerToMRITransf hasSkinSurf
          (actorKeysForTool tool) acts := by
  unfold refreshTool
  rw [ha, hw]

theorem refreshTool_apply_ne_key (moving : List ActorKey) (trackerToMRITransf : Option M4)
    (hasSkinSurf : Bool) (m : PositionsMap) (acts : Actors) (tool : Tool) (j : ActorKey)
    (h : j.1 ≠ tool.key) :
    refreshTool moving trackerToMRITransf hasSkinSurf m acts tool j = acts j := by
  have hnot : j ∉ actorKeysForTool tool := fun hmem =>
    h (mem_actorKeysForTool_fst tool j hmem)
  cases ha : tool.isActive
  · rw [refreshTool_eq_of_inactive moving trackerToMRITransf hasSkinSurf m acts tool ha]
    exact hideToolActors_apply_not_mem _ acts j hnot
  · cases hw : getLatestTransf m tool.trackerKey with
    | none =>
      rw [refreshTool_eq_of_no_transf moving trackerToMRITransf hasSkinSurf m acts tool hw]
      exact hideToolActors_apply_not_mem _ acts j hnot
    | some w =>
      rw [refreshTool_eq_of_active moving trackerToMRITransf hasSkinSurf m acts tool w ha hw]
      exact processActorKeys_apply_not_mem tool w moving trackerToMRITransf hasSkinSurf _
        acts j hnot

theorem refreshTool_userTransform_of_moving (moving : List ActorKey)
    (trackerToMRITransf : Option M4) (hasSkinSurf : Bool) (m : PositionsMap) (acts : Actors)
    (tool : Tool) (j : ActorKey) (hj : j ∈ moving) :
    ((refreshTool moving trackerToMRITransf hasSkinSurf m acts tool) j).map
        (fun a => a.userTransform)
      = (acts j).map (fun a => a.userTransform) := by
  cases ha : tool.isActive
  · rw [refreshTool_eq_of_inactive moving trackerToMRITransf hasSkinSurf m acts tool ha]
    exact hideToolActors_userTransform _ acts j
  · cases hw : getLatestTransf m tool.trackerKey with
    | none =>
      rw [refreshTool_eq_of_no_transf moving trackerToMRITransf hasSkinSurf m acts tool hw]
      exact hideToolActors_userTransform _ acts j
    | some w =>
      rw [refreshTool_eq_of_active moving trackerToMRITransf hasSkinSurf m acts tool w ha hw]
      rw [processActorKeys_apply_moving tool w moving trackerToMRITransf hasSkinSurf _ acts j hj]

theorem refreshTools_userTransform_of_moving (moving : List ActorKey)
    (trackerToMRITransf : Option M4) (hasSkinSurf : Bool) (m : PositionsMap)
    (tools : List Tool) :
    ∀ (acts : Actors) (j : ActorKey), j ∈ moving →
      ((refreshTools moving trackerToMRITransf hasSkinSurf m tools acts) j).map
          (fun a => a.userTransform)
        = (acts j).map (fun a => a.userTransform) := by
  induction tools with
  | nil => intro acts j _; rfl
  | cons tool rest ih =>
    intro acts j hj
    simp only [refreshTools]
    rw [ih _ j hj]
    exact refreshTool_userTransform_of_moving moving trackerToMRITransf hasSkinSurf m acts
      tool j hj

theorem refreshTools_apply_ne_keys (moving : List ActorKey) (trackerToMRITransf : Option M4)
    (hasSkinSurf : Bool) (m : PositionsMap) (tools : List Tool) :
    ∀ (acts : Actors) (j : ActorKey), (∀ tool ∈ tools, tool.key ≠ j.1) →
      refreshTools moving trackerToMRITransf hasSkinSurf m tools acts j = acts j := by
  induction tools with
  | nil => intro acts j _; rfl
  | cons tool rest ih =>
    intro acts j hkeys
    simp only [refreshTools]
    rw [ih _ j (fun t2 h2 => hkeys t2 (List.mem_cons_of_mem _ h2))]
    exact refreshTool_apply_ne_key moving trackerToMRITransf hasSkinSurf m acts tool j
      (fun e => hkeys tool (List.mem_cons_self _ _) e.symm)

theorem refreshMirrorStage_moving (s : PanelState) :
    (refreshMirrorStage s).currentlyMovingActors = s.currentlyMovingActors := rfl

theorem refreshTools_hides (moving : List ActorKey) (trackerToMRITransf : Option M4)
    (hasSkinSurf : Bool) (m : PositionsMap) (tool : Tool) (k : ActorKey) (a : ActorState)
    (hcond : tool.isActive = false ∨ getLatestTransf m tool.trackerKey = none)
    (hk : k ∈ actorKeysForTool tool) :
    ∀ (tools : List Tool) (acts : Actors), tool ∈ tools → (tools.map Tool.key).Nodup →
      acts k = some a →
      refreshTools moving trackerToMRITransf hasSkinSurf m tools acts k
        = some { visible := false, userTransform := a.userTransform } := by
  intro tools
  induction tools with
  | nil => intro acts hmem; cases hmem
  | cons hd rest ih =>
    intro acts hmem hnd ha
    rw [List.map_cons, List.nodup_cons] at hnd
    simp only [refreshTools]
    have hkey : k.1 = tool.key := mem_actorKeysForTool_fst tool k hk
    rcases List.mem_cons.mp hmem with he | he
    · subst he
      have hhide : refreshTool moving trackerToMRITransf hasSkinSurf m acts tool
          = hideToolActors (actorKeysForTool tool) acts := by
        rcases hcond with hc | hc
        · exact refreshTool_eq_of_inactive moving trackerToMRITransf hasSkinSurf m acts tool hc
        · exact refreshTool_eq_of_no_transf moving trackerToMRITransf hasSkinSurf m acts tool hc
      have hval : refreshTool moving trackerToMRITransf hasSkinSurf m acts tool k
          = some { visible := false, userTransform := a.userTransform } := by
        rw [hhide]
        exact hideToolActors_result _ acts k a hk ha
      rw [refreshTools_apply_ne_keys moving trackerToMRITransf hasSkinSurf m rest _ k
        (fun t2 h2 e => hnd.1 (by
          rw [← e.trans hkey]
          exact List.mem_map_of_mem Tool.key h2)),
        hval]
    · have hne : k.1 ≠ hd.key := by
        rw [hkey]
        intro e
        exact hnd.1 (by rw [← e]; exact List.mem_map_of_mem Tool.key he)
      apply ih _ he hnd.2
      rw [refreshTool_apply_ne_key moving trackerToMRITransf hasSkinSurf m acts hd k hne]
      exact ha

/-- C10: during a refresh pass, when an entity is inactive or has no
resolved pose, every existing actor of that entity ends the pass hidden,
with its transform untouched; the statement places no condition on the
moving set, so the hiding applies even to an actorKey currently being
dragged (the hide branch runs before the MovingSet check). -/
theorem C10_inactive_or_poseless_hides (s : PanelState) (t : ℚ) (tool : Tool) (k : ActorKey)
    (a : ActorState)
    (hnd : (s.tools.map Tool.key).Nodup)
    (hmem : tool ∈ s.tools)
    (hres : s.hasRestoredPositions = true)
    (hinit : s.hasInitialized = true)
    (hcond : tool.isActive = false ∨ getLatestTransf s.positions tool.trackerKey = none)
    (hk : k ∈ actorKeysForTool tool)
    (ha : s.actors k = some a) :
    (onLatestPositionsChanged s t).actors k
      = some { visible := false, userTransform := a.userTransform } := by
  unfold onLatestPositionsChanged
  rw [refreshRestoreStage_eq_of_flag s t hres]
  have hc : ¬((refreshMirrorStage s).hasInitialized = false
      ∧ (refreshMirrorStage s).isInitializing = false) := by
    intro hcon
    have hfalse : s.hasInitialized = false := hcon.1
    rw [hinit] at hfalse
    cases hfalse
  unfold refreshRenderStage
  rw [if_neg hc]
  show refreshTools s.currentlyMovingActors s.trackerToMRITransf s.hasSkinSurf
      s.positions s.tools s.actors k = _
  exact refreshTools_hides s.currentlyMovingActors s.trackerToMRITransf s.hasSkinSurf
    s.positions tool k a hcond hk s.tools s.actors hmem hnd ha

/-- Witness for C10: in the concrete state s2cex the tool is inactive
and its tracker actor is in the moving set, yet the refresh pass hides
it (visibility turned off, transform untouched). -/
theorem C10_witness :
    ("T1", Aspect.tracker) ∈ s2cex.currentlyMovingActors
      ∧ (onLatestPositionsChanged s2cex 0).actors ("T1", Aspect.tracker)
          = some { visible := false, userTransform := none } :=
  ⟨by decide,
    C10_inactive_or_poseless_hides s2cex 0 cexTool ("T1", Aspect.tracker)
      { visible := true, userTransform := none }
      (by decide) (List.mem_cons_self _ _) rfl rfl (Or.inl rfl) (by decide) (by decide)⟩

/-- C2 counterexample: the claim that the refresh pass never mutates an
actor whose key is in MovingSet is false on the code. In the concrete
state s2cex the dragged actorKey belongs to an inactive tool, and the
hide branch of the refresh pass (which runs before the MovingSet check)
turns its visibility off, mutating the actor. -/
theorem C2_counterexample :
    ("T1", Aspect.tracker) ∈ s2cex.currentlyMovingActors
      ∧ (onLatestPositionsChanged s2cex 0).actors ("T1", Aspect.tracker)
          ≠ s2cex.actors ("T1", Aspect.tracker) := by
  decide

/-- C2 amended: for every actorKey in MovingSet, the refresh pass never
overwrites the displayed transform of that actor (nor creates or removes
its binding); the only mutation it may still apply is the visibility-off
of the hide branch for an inactive or poseless entity. -/
theorem C2_moving_actor_transform_preserved (s : PanelState) (t : ℚ) (k : ActorKey)
    (hk : k ∈ s.currentlyMovingActors) :
    ((onLatestPositionsChanged s t).actors k).map (fun a => a.userTransform)
      = (s.actors k).map (fun a => a.userTransform) := by
  have hact : (refreshMirrorStage (refreshRestoreStage s t)).actors = s.actors := by
    rw [refreshMirrorStage_actors, refreshRestoreStage_actors]
  have hmov : (refreshMirrorStage (refreshRestoreStage s t)).currentlyMovingActors
      = s.currentlyMovingActors := by
    rw [refreshMirrorStage_moving, refreshRestoreStage_moving]
  unfold onLatestPositionsChanged refreshRenderStage
  split
  · rw [hact]
  · show ((refreshTools (refreshMirrorStage (refreshRestoreStage s t)).currentlyMovingActors
        (refreshMirrorStage (refreshRestoreStage s t)).trackerToMRITransf
        (refreshMirrorStage (refreshRestoreStage s t)).hasSkinSurf
        (refreshMirrorStage (refreshRestoreStage s t)).positions
        (refreshMirrorStage (refreshRestoreStage s t)).tools
        (refreshMirrorStage (refreshRestoreStage s t)).actors) k).map
          (fun a => a.userTransform)
      = (s.actors k).map (fun a => a.userTransform)
    rw [hmov, hact]
    exact refreshTools_userTransform_of_moving s.currentlyMovingActors _ _ _ _ s.actors k hk

/-- Witness for the amended C2 at the concrete dragged state: the
displayed transform of the moving actor is preserved across the refresh
pass. -/
theorem C2_witness :
    ("T1", Aspect.tracker) ∈ s2cex.currentlyMovingActors
      ∧ ((onLatestPositionsChanged s2cex 0).actors ("T1", Aspect.tracker)).map
          (fun a => a.userTransform)
        = (s2cex.actors ("T1", Aspect.tracker)).map (fun a => a.userTransform) :=
  ⟨by decide, C2_moving_actor_transform_preserved s2cex 0 ("T1", Aspect.tracker) (by decide)⟩

theorem removeToolActorStep_eq_of_some (acc : Actors × Bool) (k : ActorKey) (a : ActorState)
    (h : acc.1 k = some a) :
    removeToolActorStep acc k = (Function.update acc.1 k none, true) := by
  unfold removeToolActorStep
  rw [h]

theorem removeToolActorStep_eq_of_none (acc : Actors × Bool) (k : ActorKey)
    (h : acc.1 k = none) : removeToolActorStep acc k = acc := by
  unfold removeToolActorStep
  rw [h]

theorem removeToolActorStep_fst_apply (acc : Actors × Bool) (k j : ActorKey) :
    (removeToolActorStep acc k).1 j = if j = k then none else acc.1 j := by
  cases h2 : acc.1 k with
  | some a =>
    rw [removeToolActorStep_eq_of_some acc k a h2]
    by_cases hj : j = k
    · subst hj
      rw [if_pos rfl]
      exact Function.update_same _ _ _
    · rw [if_neg hj]
      exact Function.update_noteq hj _ _
  | none =>
    rw [removeToolActorStep_eq_of_none acc k h2]
    by_cases hj : j = k
    · subst hj
      rw [if_pos rfl]
      exact h2
    · rw [if_neg hj]

theorem removeToolActorsLoop_fst_none (ts : List Tool) :
    ∀ (acc : Actors × Bool) (j : ActorKey), acc.1 j = none →
      (removeToolActorsLoop ts acc).1 j = none := by
  induction ts with
  | nil => intro acc j h; exact h
  | cons hd rest ih =>
    intro acc j h
    simp only [removeToolActorsLoop]
    apply ih
    rw [removeToolActorStep_fst_apply, removeToolActorStep_fst_apply]
    by_cases h1 : j = (hd.key, Aspect.tool)
    · rw [if_pos h1]
    · rw [if_neg h1]
      by_cases h2 : j = (hd.key, Aspect.tracker)
      · rw [if_pos h2]
      · rw [if_neg h2]
        exact h

theorem removeToolActorsLoop_fst_match (ts : List Tool) :
    ∀ (acc : Actors × Bool) (j : ActorKey) (tool : Tool), tool ∈ ts →
      (j = (tool.key, Aspect.tracker) ∨ j = (tool.key, Aspect.tool)) →
      (removeToolActorsLoop ts acc).1 j = none := by
  induction ts with
  | nil => intro _ _ _ hmem; cases hmem
  | cons hd rest ih =>
    intro acc j tool hmem hj
    simp only [removeToolActorsLoop]
    rcases List.mem_cons.mp hmem with he | he
    · subst he
      apply removeToolActorsLoop_fst_none
      rw [removeToolActorStep_fst_apply, removeToolActorStep_fst_apply]
      rcases hj with e | e
      · by_cases h1 : j = (tool.key, Aspect.tool)
        · rw [if_pos h1]
        · rw [if_neg h1, if_pos e]
      · rw [if_pos e]
    · exact ih _ j tool he hj

theorem removeToolActorsLoop_fst_keep (ts : List Tool) :
    ∀ (acc : Actors × Bool) (j : ActorKey),
      (∀ tool ∈ ts, j ≠ (tool.key, Aspect.tracker) ∧ j ≠ (tool.key, Aspect.tool)) →
      (removeToolActorsLoop ts acc).1 j = acc.1 j := by
  induction ts with
  | nil => intro acc j _; rfl
  | cons hd rest ih =>
    intro acc j h
    simp only [removeToolActorsLoop]
    rw [ih _ j (fun t2 hm => h t2 (List.mem_cons_of_mem _ hm))]
    have hhd := h hd (List.mem_cons_self _ _)
    rw [removeToolActorStep_fst_apply, removeToolActorStep_fst_apply,
      if_neg hhd.2, if_neg hhd.1]

theorem onLatestPositionsChanged_actors_of_uninit (s : PanelState) (t : ℚ)
    (h1 : s.hasInitialized = false) (h2 : s.isInitializing = false) :
    (onLatestPositionsChanged s t).actors = s.actors := by
  have hc : (refreshMirrorStage (refreshRestoreStage s t)).hasInitialized = false
      ∧ (refreshMirrorStage (refreshRestoreStage s t)).isInitializing = false := by
    constructor
    · show (refreshRestoreStage s t).hasInitialized = false
      rw [refreshRestoreStage_hasInitialized]
      exact h1
    · show (refreshRestoreStage s t).isInitializing = false
      rw [refreshRestoreStage_isInitializing]
      exact h2
  unfold onLatestPositionsChanged refreshRenderStage
  rw [if_pos hc, refreshMirrorStage_actors, refreshRestoreStage_actors]

theorem onToolsChanged_eq (s : PanelState) (t : ℚ) :
    onToolsChanged s t
      = (if (removeToolActorsLoop s.tools (s.actors, false)).2 then
          onLatestPositionsChanged
            { s with actors := (removeToolActorsLoop s.tools (s.actors, false)).1 } t
        else { s with actors := (removeToolActorsLoop s.tools (s.actors, false)).1 }) := rfl

/-- C6 counterexample: the claim that exactly the removed entity
bindings are removed and the remaining entity bindings are left in
place is false on the code: in s6cex the orphan binding of the removed
entity Gone survives the handler while the binding of the remaining
entity Stay is removed. -/
theorem C6_counterexample :
    (onToolsChanged s6cex 0).actors ("Gone", Aspect.tracker)
        = some { visible := true, userTransform := none }
      ∧ (onToolsChanged s6cex 0).actors ("Stay", Aspect.tracker) = none := by
  decide

/-- C6 amended: when the entity set changes (before the panel finished
initializing, so the triggered refresh leaves the binding table alone),
the handler removes exactly the Tracker and Tool aspect bindings of
every entity currently in the registry; bindings of removed entities,
and subject-aspect bindings, are left in place. -/
theorem C6_onToolsChanged_removes_current_tool_bindings (s : PanelState) (t : ℚ)
    (h1 : s.hasInitialized = false) (h2 : s.isInitializing = false) (k : ActorKey) :
    ((∃ tool ∈ s.tools, k = (tool.key, Aspect.tracker) ∨ k = (tool.key, Aspect.tool)) →
        (onToolsChanged s t).actors k = none)
      ∧ ((∀ tool ∈ s.tools, k ≠ (tool.key, Aspect.tracker) ∧ k ≠ (tool.key, Aspect.tool)) →
        (onToolsChanged s t).actors k = s.actors k) := by
  have hact : (onToolsChanged s t).actors
      = (removeToolActorsLoop s.tools (s.actors, false)).1 := by
    rw [onToolsChanged_eq]
    by_cases hr : (removeToolActorsLoop s.tools (s.actors, false)).2 = true
    · rw [if_pos hr]
      exact onLatestPositionsChanged_actors_of_uninit _ t h1 h2
    · rw [if_neg hr]
  rw [hact]
  constructor
  · rintro ⟨tool, hmem, hj⟩
    exact removeToolActorsLoop_fst_match s.tools _ k tool hmem hj
  · intro h
    exact removeToolActorsLoop_fst_keep s.tools _ k h

/-- Witness for the amended C6: the handler removes the tracker binding
of the remaining entity Stay. -/
theorem C6_witness :
    (onToolsChanged s6cex 0).actors ("Stay", Aspect.tracker) = none :=
  (C6_onToolsChanged_removes_current_tool_bindings s6cex 0 rfl rfl
    ("Stay", Aspect.tracker)).1 ⟨toolStay, List.mem_cons_self _ _, Or.inl rfl⟩
